import Mathlib

/-!
Verification of the `pypwm_control` host-side package (`pwm_control.py`,
`imu_stream.py`) against its natural-language specification.

The Python source is shallowly embedded: the serial device becomes an
explicit write log, the motor-control methods become pure state-passing
functions, and the IMU stream's priming loop and steady-state generator
become fuel-indexed total functions over an abstract frame sequence and
an abstract frame decoder.
-/

/-- ASCII bytes of a string, as produced by Python's `str.encode("ASCII")`
for ASCII-only strings: one byte per character, the character's code point. -/
def strBytes (s : String) : List Nat :=
  s.data.map Char.toNat

/-- The serial device, reduced to the observable effect the claims are
about: the ordered log of byte strings written to it. -/
structure Serial where
  log : List (List Nat)
deriving DecidableEq, Repr

/-- One `serial.write(b)` call: appends the byte string to the log. -/
def Serial.writeBytes (s : Serial) (b : List Nat) : Serial :=
  ⟨s.log ++ [b]⟩

/-- Errors raised by the pwm_control module (`ValueError` for a bad
throttle percentage). -/
inductive PwmError
  | invalidArgument
deriving DecidableEq, Repr

/-- Embedding of `class Motor` (`pwm_control.py`): the handle holds its
motor id string; the shared serial device is passed explicitly. -/
structure Motor where
  motor_id : String
deriving DecidableEq, Repr

/-- Embedding of `Motor._encode` (`pwm_control.py` line 29):
`bytes(f"{self._motor_id}.{pct}\r".encode("ASCII"))`. The decimal textual
rendering of the float `pct` is supplied as the already-formatted string
`pctText`, keeping Python's float formatting abstract. -/
def Motor.encode (m : Motor) (pctText : String) : List Nat :=
  strBytes (m.motor_id ++ "." ++ pctText ++ "\r")

/-- Embedding of `Motor.set_throttle` (`pwm_control.py` lines 32-45):
`if 0.0 <= pct <= 100: self._serial.write(self._encode(pct))
else: raise ValueError(...)`. Percentages are modelled as rationals and
`fmt` models Python's decimal textual rendering of the float. Returns the
outcome together with the serial state after the call. -/
def Motor.set_throttle (m : Motor) (fmt : ℚ → String) (pct : ℚ) (s : Serial) :
    Except PwmError Unit × Serial :=
  if 0 ≤ pct ∧ pct ≤ 100 then
    (Except.ok (), s.writeBytes (m.encode (fmt pct)))
  else
    (Except.error PwmError.invalidArgument, s)

/-- Embedding of `PwmControl.motor` (`pwm_control.py` lines 54-61):
`if motor_id in {"A", "B", "C", "D"}: return Motor(motor_id, self._serial)`
(implicitly returning `None` otherwise). -/
def PwmControl.motor (motor_id : String) : Option Motor :=
  if motor_id ∈ ["A", "B", "C", "D"] then some ⟨motor_id⟩ else none

/-- Embedding of `PwmControl.reset` (`pwm_control.py` lines 63-69):
`self._serial.write(b" ")` — the single byte 0x20. -/
def PwmControl.reset (s : Serial) : Serial :=
  s.writeBytes [0x20]

/-- Embedding of `PwmControl.kill` (`pwm_control.py` lines 71-78):
`self._serial.write(b"\\")` — the single byte 0x5C. The source keeps no
poisoned flag: the only state it touches is the serial write log. -/
def PwmControl.kill (s : Serial) : Serial :=
  s.writeBytes [0x5C]

/-- The valid IMU reading kinds (`class ImuReading`, `imu_stream.py`
lines 11-16): the closed set {Acc, Gyro, Mag} re-exported from the
`motion_sensor` library. -/
inductive ReadingKind
  | Acc
  | Gyro
  | Mag
deriving DecidableEq, Repr

/-- One decoded IMU reading: its kind plus three axis values
(spec: Reading = {kind, x, y, z}); only the kind is inspected by this
package. -/
structure Reading where
  kind : ReadingKind
  x : ℚ
  y : ℚ
  z : ℚ
deriving DecidableEq, Repr

/-- One delimiter-terminated chunk of inbound bytes. -/
abbrev Frame := List Nat

/-- The frame decoder `motion_sensor.convert_readings`: a frame either
decodes to a list of readings or is rejected (`ValueError`). The decoder
lives outside `src/`, so it stays an abstract parameter of the model. -/
abbrev Decoder := Frame → Except Unit (List Reading)

/-- Modelled from the spec: the Transport's `readUntil(0x00)` (pyserial
`read_until`, external to the core) blocks until the delimiter byte 0x00
is observed and returns the accumulated bytes excluding the delimiter
(spec section 4.2 FrameReader). -/
def frameFromWire (raw : List Nat) : Frame :=
  raw.takeWhile (fun b => b ≠ 0)

/-- The value of `MAX_RETRIES` in `ImuStream._prime_readings`
(`imu_stream.py` line 39). -/
def MAX_RETRIES : Nat := 1000

/-- Outcome of the priming loop: whether it synced, how many
`read_until` calls it made, and how many `reset_input_buffer` calls it
made. -/
structure PrimeOutcome where
  synced : Bool
  reads : Nat
  clears : Nat
deriving DecidableEq, Repr

/-- The loop body of `ImuStream._prime_readings` (`imu_stream.py` lines
41-49): while retries remain, clear the input buffer, read one frame,
try to decode it; success returns, rejection consumes one retry. `i` is
the index of the next frame the transport will deliver and `fuel` the
number of retries remaining (`MAX_RETRIES - retries`). Each iteration
performs exactly one buffer clear followed by one read. -/
def primeAux (decode : Decoder) (frames : Nat → Frame) :
    (i fuel : Nat) → PrimeOutcome
  | _, 0 => ⟨false, 0, 0⟩
  | i, fuel + 1 =>
    match decode (frames i) with
    | Except.ok _ => ⟨true, 1, 1⟩
    | Except.error _ =>
      let r := primeAux decode frames (i + 1) fuel
      ⟨r.synced, r.reads + 1, r.clears + 1⟩

/-- Embedding of `ImuStream._prime_readings` (`imu_stream.py` lines
38-51): run the retry loop from the start of the frame sequence with
`MAX_RETRIES` retries; `synced = false` means the loop exhausted its
retries and raised `TimeoutError`. -/
def ImuStream.prime_readings (decode : Decoder) (frames : Nat → Frame) :
    PrimeOutcome :=
  primeAux decode frames 0 MAX_RETRIES

/-- The stream lifecycle states of the spec
(`Unstarted -> start -> Streaming -> terminal error -> Failed`). -/
inductive StreamState
  | unstarted
  | streaming
  | failed
deriving DecidableEq, Repr

/-- Embedding of the start of `ImuStream.stream` (`imu_stream.py` line
84): `self._prime_readings()` runs first; a `TimeoutError` means the
stream never starts, otherwise streaming begins. Returns the resulting
state with the read and clear counts of priming. -/
def ImuStream.start (decode : Decoder) (frames : Nat → Frame) :
    StreamState × Nat × Nat :=
  let p := ImuStream.prime_readings decode frames
  (if p.synced then StreamState.streaming else StreamState.failed,
   p.reads, p.clears)

/-- The default measurement filter (`imu_stream.py` lines 32-36): all
reading kinds enabled. -/
def defaultFilter : Finset ReadingKind :=
  {ReadingKind.Acc, ReadingKind.Gyro, ReadingKind.Mag}

/-- One `self._measurement_filter.remove(t)` call (`imu_stream.py` line
63): Python set removal is strict — removing an absent element raises
`KeyError`. -/
def removeReading (f : Finset ReadingKind) (k : ReadingKind) :
    Except Unit (Finset ReadingKind) :=
  if k ∈ f then Except.ok (f.erase k) else Except.error ()

/-- Embedding of `ImuStream.disable_readings` (`imu_stream.py` lines
53-63): remove each listed kind in order; the first absent kind raises,
aborting the loop but keeping the removals already performed. Returns
the filter state after the call and `some ()` when it raised. -/
def ImuStream.disable_readings (f : Finset ReadingKind) :
    List ReadingKind → Finset ReadingKind × Option Unit
  | [] => (f, none)
  | k :: ks =>
    if k ∈ f then ImuStream.disable_readings (f.erase k) ks
    else (f, some ())

/-- Embedding of `ImuStream.enable_readings` (`imu_stream.py` lines
65-75): insert each listed kind into the filter set. -/
def ImuStream.enable_readings (f : Finset ReadingKind) :
    List ReadingKind → Finset ReadingKind
  | [] => f
  | k :: ks => ImuStream.enable_readings (insert k f) ks

/-- The per-reading filter test in `ImuStream.stream` (`imu_stream.py`
line 89): `type(reading) in self._measurement_filter`. -/
def applyFilter (f : Finset ReadingKind) (r : Reading) : Bool :=
  r.kind ∈ f

/-- Observable outcome of running the steady-state loop of
`ImuStream.stream` over a bounded number of frames: the readings yielded
in order, whether a decode rejection escaped, and how many reads were
performed. The loop body (`imu_stream.py` lines 85-90) contains no
`reset_input_buffer` call. -/
structure SteadyOut where
  out : List Reading
  err : Bool
  reads : Nat
deriving DecidableEq, Repr

/-- The steady-state loop of `ImuStream.stream` (`imu_stream.py` lines
85-90), run for at most `fuel` frames starting at frame index `i`:
read one frame, decode it — an undecodable frame raises `ValueError`
out of the generator, ending it — and yield the decoded readings whose
kind passes the measurement filter, in decode order. -/
def steadyLoop (decode : Decoder) (filt : Finset ReadingKind)
    (frames : Nat → Frame) : (i fuel : Nat) → SteadyOut
  | _, 0 => ⟨[], false, 0⟩
  | i, fuel + 1 =>
    match decode (frames i) with
    | Except.error _ => ⟨[], true, 1⟩
    | Except.ok rs =>
      let r := steadyLoop decode filt frames (i + 1) fuel
      ⟨rs.filter (applyFilter filt) ++ r.out, r.err, r.reads + 1⟩

/-- Observable outcome of one whole `ImuStream.stream` run bounded to
`fuel` steady-state frames: priming followed by the steady loop. -/
structure RunOutcome where
  primeOk : Bool
  out : List Reading
  decodeErr : Bool
  reads : Nat
  clears : Nat
deriving DecidableEq, Repr

/-- Embedding of `ImuStream.stream` (`imu_stream.py` lines 77-90):
`self._prime_readings()` then the endless generator loop, observed over
the first `fuel` steady-state frames. Frames consumed while priming are
not replayed; the steady loop never clears the input buffer and never
re-primes. -/
def ImuStream.streamRun (decode : Decoder) (filt : Finset ReadingKind)
    (frames : Nat → Frame) (fuel : Nat) : RunOutcome :=
  let p := ImuStream.prime_readings decode frames
  if p.synced then
    let s := steadyLoop decode filt frames p.reads fuel
    ⟨true, s.out, s.err, p.reads + s.reads, p.clears⟩
  else
    ⟨false, [], false, p.reads, p.clears⟩

/-- The stream state after a bounded run: priming failure or an escaped
decode rejection leaves the stream Failed; otherwise it is Streaming. -/
def ImuStream.stateAfter (ro : RunOutcome) : StreamState :=
  if ro.primeOk then
    (if ro.decodeErr then StreamState.failed else StreamState.streaming)
  else StreamState.failed

/-- Helper: when every frame is rejected, each priming iteration consumes
one retry, performing one clear and one read, until the fuel is gone. -/
theorem primeAux_all_error (decode : Decoder) (frames : Nat → Frame)
    (hbad : ∀ j, decode (frames j) = Except.error ()) :
    ∀ fuel i, primeAux decode frames i fuel = ⟨false, fuel, fuel⟩ := by
  intro fuel
  induction fuel with
  | zero => intro i; rfl
  | succ n ih => intro i; simp [primeAux, hbad i, ih]

/-- Helper: when the first `M` frames seen are rejected and frame `M` then
decodes, the priming loop syncs after exactly `M + 1` clear-read-decode
iterations, provided the fuel covers attempt `M + 1`. -/
theorem primeAux_error_prefix (decode : Decoder) (frames : Nat → Frame) :
    ∀ (M i fuel : Nat) (rs : List Reading), M < fuel →
      (∀ j, j < M → decode (frames (i + j)) = Except.error ()) →
      decode (frames (i + M)) = Except.ok rs →
      primeAux decode frames i fuel = ⟨true, M + 1, M + 1⟩ := by
  intro M
  induction M with
  | zero =>
    intro i fuel rs hfuel _ hok
    match fuel, hfuel with
    | f + 1, _ =>
      have h0 : decode (frames i) = Except.ok rs := by simpa using hok
      simp [primeAux, h0]
  | succ M ih =>
    intro i fuel rs hfuel hbad hok
    match fuel, hfuel with
    | f + 1, hfuel =>
      have h0 : decode (frames i) = Except.error () := by
        simpa using hbad 0 (Nat.succ_pos M)
      have hr : primeAux decode frames (i + 1) f = ⟨true, M + 1, M + 1⟩ := by
        refine ih (i + 1) f rs (Nat.lt_of_succ_lt_succ hfuel) ?_ ?_
        · intro j hj
          have := hbad (j + 1) (Nat.succ_lt_succ hj)
          simpa [Nat.add_comm, Nat.add_left_comm, Nat.add_assoc] using this
        · simpa [Nat.add_comm, Nat.add_left_comm, Nat.add_assoc] using hok
      simp [primeAux, h0, hr]

/-- Helper: in the steady-state loop, `j` decodable frames followed by a
rejected one yield exactly the filtered readings of the `j` frames in
order, surface the rejection, and perform exactly `j + 1` reads. -/
theorem steadyLoop_ok_prefix (decode : Decoder) (filt : Finset ReadingKind)
    (frames : Nat → Frame) :
    ∀ (j : Nat) (rss : Nat → List Reading) (i fuel : Nat), j < fuel →
      (∀ t, t < j → decode (frames (i + t)) = Except.ok (rss t)) →
      decode (frames (i + j)) = Except.error () →
      steadyLoop decode filt frames i fuel =
        ⟨((List.range j).map
            (fun t => (rss t).filter (applyFilter filt))).flatten,
          true, j + 1⟩ := by
  intro j
  induction j with
  | zero =>
    intro rss i fuel hfuel _ hbad
    match fuel, hfuel with
    | f + 1, _ =>
      have h0 : decode (frames i) = Except.error () := by simpa using hbad
      simp [steadyLoop, h0]
  | succ j ih =>
    intro rss i fuel hfuel hok hbad
    match fuel, hfuel with
    | f + 1, hfuel =>
      have h0 : decode (frames i) = Except.ok (rss 0) := by
        simpa using hok 0 (Nat.succ_pos j)
      have hr : steadyLoop decode filt frames (i + 1) f =
          ⟨((List.range j).map
              (fun t => (rss (t + 1)).filter (applyFilter filt))).flatten,
            true, j + 1⟩ := by
        refine ih (fun t => rss (t + 1)) (i + 1) f
          (Nat.lt_of_succ_lt_succ hfuel) ?_ ?_
        · intro t ht
          have := hok (t + 1) (Nat.succ_lt_succ ht)
          simpa [Nat.add_comm, Nat.add_left_comm, Nat.add_assoc] using this
        · simpa [Nat.add_comm, Nat.add_left_comm, Nat.add_assoc] using hbad
      simp [steadyLoop, h0, hr, List.range_succ_eq_map, List.map_map,
        Function.comp_def]

/-- Helper: a successful `disable_readings` run removes every listed kind
from the resulting filter state. -/
theorem disable_readings_subset :
    ∀ (ks : List ReadingKind) (f g : Finset ReadingKind) (e : Option Unit),
      ImuStream.disable_readings f ks = (g, e) → g ⊆ f := by
  intro ks
  induction ks with
  | nil =>
    intro f g e h
    simp [ImuStream.disable_readings] at h
    exact h.1 ▸ Finset.Subset.refl f
  | cons k ks ih =>
    intro f g e h
    by_cases hk : k ∈ f
    · simp [ImuStream.disable_readings, hk] at h
      exact Finset.Subset.trans (ih (f.erase k) g e h) (Finset.erase_subset k f)
    · simp [ImuStream.disable_readings, hk] at h
      exact h.1 ▸ Finset.Subset.refl f

/-- Helper: a `disable_readings` call that completes without raising has
removed every listed kind from the filter state it returns. -/
theorem disable_readings_removed :
    ∀ (ks : List ReadingKind) (f g : Finset ReadingKind),
      ImuStream.disable_readings f ks = (g, none) → ∀ j ∈ ks, j ∉ g := by
  intro ks
  induction ks with
  | nil => intro f g _ j hj; exact absurd hj (List.not_mem_nil j)
  | cons k ks ih =>
    intro f g h j hj
    by_cases hk : k ∈ f
    · rw [ImuStream.disable_readings, if_pos hk] at h
      rcases List.mem_cons.mp hj with rfl | hj2
      · have hsub : g ⊆ f.erase j := disable_readings_subset ks _ g none h
        exact fun hg => absurd (hsub hg) (Finset.not_mem_erase j f)
      · exact ih (f.erase k) g h j hj2
    · rw [ImuStream.disable_readings, if_neg hk] at h
      exact absurd (congrArg Prod.snd h) (by simp)

/-- Helper: a successfully disabled prefix composes — the loop continues
on the rest of the list from the mutated filter state. -/
theorem disable_readings_append :
    ∀ (pre : List ReadingKind) (f g : Finset ReadingKind)
      (rest : List ReadingKind),
      ImuStream.disable_readings f pre = (g, none) →
      ImuStream.disable_readings f (pre ++ rest) =
        ImuStream.disable_readings g rest := by
  intro pre
  induction pre with
  | nil =>
    intro f g rest h
    have hfg : f = g := by simpa [ImuStream.disable_readings] using h
    rw [hfg, List.nil_append]
  | cons k pre ih =>
    intro f g rest h
    by_cases hk : k ∈ f
    · rw [ImuStream.disable_readings, if_pos hk] at h
      rw [List.cons_append, ImuStream.disable_readings, if_pos hk]
      exact ih (f.erase k) g rest h
    · rw [ImuStream.disable_readings, if_neg hk] at h
      exact absurd (congrArg Prod.snd h) (by simp)

/-- C1: a throttle send succeeds and appends exactly the ASCII bytes
`"<MotorId>.<percent>\r"` to the transport iff `0 ≤ pct ≤ 100`; for
`pct < 0` or `pct > 100` it fails with InvalidArgument (ValueError) and
writes nothing. -/
theorem throttle_send_range_spec (m : Motor) (fmt : ℚ → String) (pct : ℚ)
    (s : Serial) :
    (0 ≤ pct ∧ pct ≤ 100 →
      m.set_throttle fmt pct s =
        (Except.ok (),
          s.writeBytes (strBytes (m.motor_id ++ "." ++ fmt pct ++ "\r")))) ∧
    (pct < 0 ∨ 100 < pct →
      m.set_throttle fmt pct s = (Except.error PwmError.invalidArgument, s)) ∧
    ((m.set_throttle fmt pct s).1 = Except.ok () ↔ 0 ≤ pct ∧ pct ≤ 100) := by
  unfold Motor.set_throttle Motor.encode
  refine ⟨fun h => by simp [h], fun h => ?_, ?_⟩
  · have : ¬ (0 ≤ pct ∧ pct ≤ 100) := by
      rcases h with h | h
      · exact fun hc => absurd hc.1 (not_le.mpr h)
      · exact fun hc => absurd hc.2 (not_le.mpr h)
    simp [this]
  · by_cases h : 0 ≤ pct ∧ pct ≤ 100 <;> simp [h]

/-- Witness for C1: motor "A" at 37 percent succeeds and writes
`"A.37\r"`; the hypothesis `0 ≤ 37 ∧ 37 ≤ 100` is discharged concretely. -/
theorem throttle_send_range_spec_witness :
    Motor.set_throttle ⟨"A"⟩ (fun _ => "37") 37 ⟨[]⟩ =
      (Except.ok (),
        Serial.writeBytes ⟨[]⟩ (strBytes ("A" ++ "." ++ "37" ++ "\r"))) :=
  (throttle_send_range_spec ⟨"A"⟩ (fun _ => "37") 37 ⟨[]⟩).1 (by norm_num)

/-- C2: every `reset()` call writes exactly the single byte 0x20 and every
`kill()` call writes exactly the single byte 0x5C, unconditionally. -/
theorem reset_kill_wire_bytes (s : Serial) :
    PwmControl.reset s = ⟨s.log ++ [[0x20]]⟩ ∧
    PwmControl.kill s = ⟨s.log ++ [[0x5C]]⟩ :=
  ⟨rfl, rfl⟩

/-- C3 counterexample: after `kill()` the handle is not poisoned — a
subsequent `set_throttle` still succeeds and still writes its command
bytes to the transport, contradicting the claimed PoisonedAfterKill
failure with no write. -/
theorem post_kill_send_counterexample :
    (Motor.set_throttle ⟨"A"⟩ (fun _ => "37") 37 (PwmControl.kill ⟨[]⟩)).1 =
      Except.ok () ∧
    (Motor.set_throttle ⟨"A"⟩ (fun _ => "37") 37 (PwmControl.kill ⟨[]⟩)).2.log =
      [[0x5C], strBytes ("A.37\r")] := by
  constructor
  · rfl
  · rfl

/-- C3 amended: the code keeps no poisoned state after `kill()` — any
in-range `set_throttle` issued after `kill()` succeeds and appends its
command bytes to the transport write log (the poison-after-kill contract
is documentation-only). -/
theorem post_kill_send_not_poisoned (m : Motor) (fmt : ℚ → String) (pct : ℚ)
    (s : Serial) (h : 0 ≤ pct ∧ pct ≤ 100) :
    m.set_throttle fmt pct (PwmControl.kill s) =
      (Except.ok (),
        (PwmControl.kill s).writeBytes
          (strBytes (m.motor_id ++ "." ++ fmt pct ++ "\r"))) := by
  unfold Motor.set_throttle Motor.encode
  simp [h]

/-- Witness for the amended C3 at a concrete post-kill send. -/
theorem post_kill_send_not_poisoned_witness :
    Motor.set_throttle ⟨"B"⟩ (fun _ => "0") 0 (PwmControl.kill ⟨[]⟩) =
      (Except.ok (),
        (PwmControl.kill ⟨[]⟩).writeBytes
          (strBytes ("B" ++ "." ++ "0" ++ "\r"))) :=
  post_kill_send_not_poisoned ⟨"B"⟩ (fun _ => "0") 0 ⟨[]⟩ (by norm_num)

/-- C9: motor acquisition is total over strings — it yields a handle iff
the string is in the closed set {"A","B","C","D"}, the handle's id equals
the string, and every other string yields no handle without raising. -/
theorem motor_acquisition_total (s : String) :
    (s ∈ ["A", "B", "C", "D"] →
      ∃ m : Motor, PwmControl.motor s = some m ∧ m.motor_id = s) ∧
    (s ∉ ["A", "B", "C", "D"] → PwmControl.motor s = none) := by
  unfold PwmControl.motor
  refine ⟨fun h => ⟨⟨s⟩, by simp [h], rfl⟩, fun h => by simp [h]⟩

/-- Witness for C9: "A" is acquired with id "A"; "X" yields no handle. -/
theorem motor_acquisition_total_witness :
    (∃ m : Motor, PwmControl.motor ("A") = some m ∧ m.motor_id = "A") ∧
    PwmControl.motor ("X") = none :=
  ⟨(motor_acquisition_total ("A")).1 (by decide),
   (motor_acquisition_total ("X")).2 (by decide)⟩

/-- C4: if every frame read is rejected by the decoder, priming fails
with PrimingTimeout (TimeoutError) after exactly MAX_RETRIES = 1000
read-and-decode attempts, with the input buffer cleared once before each
attempt, and the stream never starts. -/
theorem priming_all_malformed_timeout (decode : Decoder)
    (frames : Nat → Frame)
    (hbad : ∀ j, decode (frames j) = Except.error ()) :
    ImuStream.prime_readings decode frames = ⟨false, 1000, 1000⟩ ∧
    ImuStream.start decode frames = (StreamState.failed, 1000, 1000) := by
  have hp : ImuStream.prime_readings decode frames = ⟨false, 1000, 1000⟩ :=
    primeAux_all_error decode frames hbad MAX_RETRIES 0
  exact ⟨hp, by simp [ImuStream.start, hp]⟩

/-- Witness for C4: a decoder rejecting everything makes priming time out
at exactly 1000 attempts and 1000 buffer clears. -/
theorem priming_all_malformed_timeout_witness :
    ImuStream.prime_readings (fun _ => Except.error ()) (fun _ => []) =
      ⟨false, 1000, 1000⟩ ∧
    ImuStream.start (fun _ => Except.error ()) (fun _ => []) =
      (StreamState.failed, 1000, 1000) :=
  priming_all_malformed_timeout (fun _ => Except.error ()) (fun _ => [])
    (fun _ => rfl)

/-- C5: if the first `M` frames are rejected and frame `M` decodes
(possibly to zero readings), with `N = M + 1 ≤ 1000`, priming succeeds
after exactly `N` read attempts and `N` input-buffer clears (one clear
before each read), and the stream enters Streaming. -/
theorem priming_succeeds_after_n (decode : Decoder) (frames : Nat → Frame)
    (M : Nat) (rs : List Reading) (hM : M + 1 ≤ 1000)
    (hbad : ∀ j, j < M → decode (frames j) = Except.error ())
    (hok : decode (frames M) = Except.ok rs) :
    ImuStream.prime_readings decode frames = ⟨true, M + 1, M + 1⟩ ∧
    ImuStream.start decode frames = (StreamState.streaming, M + 1, M + 1) := by
  have hp : ImuStream.prime_readings decode frames = ⟨true, M + 1, M + 1⟩ :=
    primeAux_error_prefix decode frames M 0 MAX_RETRIES rs hM
      (by simpa using hbad) (by simpa using hok)
  exact ⟨hp, by simp [ImuStream.start, hp]⟩

/-- Witness for C5 at N = 2: one rejected frame, then a frame decoding to
zero readings; priming syncs after exactly 2 reads and 2 clears. -/
theorem priming_succeeds_after_n_witness :
    ImuStream.prime_readings
        (fun f => if f = [] then Except.error () else Except.ok [])
        (fun i => if i = 0 then [] else [1]) = ⟨true, 2, 2⟩ ∧
    ImuStream.start
        (fun f => if f = [] then Except.error () else Except.ok [])
        (fun i => if i = 0 then [] else [1]) =
      (StreamState.streaming, 2, 2) :=
  priming_succeeds_after_n
    (fun f => if f = [] then Except.error () else Except.ok [])
    (fun i => if i = 0 then [] else [1]) 1 [] (by norm_num)
    (fun j hj => by
      have hj0 : j = 0 := Nat.lt_one_iff.mp hj
      rw [hj0]; rfl)
    rfl

/-- C6: after priming succeeded (consuming `k` frames), `j` decodable
frames followed by the first rejected frame make the run surface the
decode error and end Failed: the rejected frame is read exactly once
(reads = k + j + 1, no retry), the input buffer is never cleared again
(clears stay at the `k` of priming, so no re-priming), and the output
contains only the filtered readings of the frames before the rejection. -/
theorem steady_decode_error_fails_stream (decode : Decoder)
    (filt : Finset ReadingKind) (frames : Nat → Frame)
    (k j fuel : Nat) (rss : Nat → List Reading)
    (hp : ImuStream.prime_readings decode frames = ⟨true, k, k⟩)
    (hok : ∀ t, t < j → decode (frames (k + t)) = Except.ok (rss t))
    (hbad : decode (frames (k + j)) = Except.error ())
    (hj : j < fuel) :
    ImuStream.streamRun decode filt frames fuel =
      ⟨true,
        ((List.range j).map
          (fun t => (rss t).filter (applyFilter filt))).flatten,
        true, k + (j + 1), k⟩ ∧
    ImuStream.stateAfter (ImuStream.streamRun decode filt frames fuel) =
      StreamState.failed := by
  have hs : steadyLoop decode filt frames k fuel =
      ⟨((List.range j).map
          (fun t => (rss t).filter (applyFilter filt))).flatten,
        true, j + 1⟩ :=
    steadyLoop_ok_prefix decode filt frames j rss k fuel hj hok hbad
  have hrun : ImuStream.streamRun decode filt frames fuel =
      ⟨true,
        ((List.range j).map
          (fun t => (rss t).filter (applyFilter filt))).flatten,
        true, k + (j + 1), k⟩ := by
    simp [ImuStream.streamRun, hp, hs]
  exact ⟨hrun, by simp [ImuStream.stateAfter, hrun]⟩

/-- Witness for C6: priming syncs on frame 0; the next frame is rejected,
so the bounded run yields no readings, surfaces the decode error, reads
2 frames in total, keeps the single priming-time buffer clear, and ends
Failed. -/
theorem steady_decode_error_fails_stream_witness :
    ImuStream.streamRun
        (fun f => if f = [] then Except.ok [] else Except.error ())
        defaultFilter (fun i => if i = 0 then [] else [7]) 1 =
      ⟨true, [], true, 2, 1⟩ ∧
    ImuStream.stateAfter
        (ImuStream.streamRun
          (fun f => if f = [] then Except.ok [] else Except.error ())
          defaultFilter (fun i => if i = 0 then [] else [7]) 1) =
      StreamState.failed :=
  steady_decode_error_fails_stream
    (fun f => if f = [] then Except.ok [] else Except.error ())
    defaultFilter (fun i => if i = 0 then [] else [7]) 1 0 1
    (fun _ => [])
    rfl
    (fun t ht => absurd ht (Nat.not_lt_zero t))
    rfl
    Nat.one_pos

/-- C7: a frame obtained from the wire is the accumulated bytes strictly
before the first 0x00 delimiter: it never contains the delimiter, and
when a delimiter was observed the raw bytes are exactly the frame, the
delimiter, and the remainder — so the bytes handed to the decoder never
include the trailing 0x00. -/
theorem frame_excludes_delimiter (raw : List Nat) :
    0 ∉ frameFromWire raw ∧
    (0 ∈ raw → ∃ t, raw = frameFromWire raw ++ 0 :: t) := by
  constructor
  · intro hmem
    have := List.mem_takeWhile_imp hmem
    simp at this
  · intro hraw
    induction raw with
    | nil => exact absurd hraw (List.not_mem_nil 0)
    | cons a l ih =>
      by_cases ha : a = 0
      · exact ⟨l, by simp [frameFromWire, ha]⟩
      · have hl : 0 ∈ l := by
          rcases List.mem_cons.mp hraw with h | h
          · exact absurd h.symm ha
          · exact h
        rcases ih hl with ⟨t, ht⟩
        refine ⟨t, ?_⟩
        have hstep : frameFromWire (a :: l) = a :: frameFromWire l := by
          simp [frameFromWire, List.takeWhile_cons, ha]
        rw [hstep, List.cons_append, ← ht]

/-- Witness for C7 on the concrete wire bytes [5, 7, 0, 9]. -/
theorem frame_excludes_delimiter_witness :
    0 ∉ frameFromWire [5, 7, 0, 9] ∧
    (∃ t, [5, 7, 0, 9] = frameFromWire [5, 7, 0, 9] ++ 0 :: t) :=
  ⟨(frame_excludes_delimiter [5, 7, 0, 9]).1,
   (frame_excludes_delimiter [5, 7, 0, 9]).2 (by decide)⟩

/-- C8: from the default all-enabled filter, `disable_readings([Acc])`
then `enable_readings([Acc])` restores the enabled set; on the state
reached by then calling `disable_readings([Mag])`, any Acc reading passes
the filter while any Mag reading does not; and in general a reading
passes iff its kind is in the enabled set. -/
theorem filter_disable_enable_roundtrip :
    ImuStream.enable_readings
        (ImuStream.disable_readings defaultFilter [ReadingKind.Acc]).1
        [ReadingKind.Acc] = defaultFilter ∧
    (∀ r : Reading, r.kind = ReadingKind.Acc →
      applyFilter
        (ImuStream.disable_readings
          (ImuStream.enable_readings
            (ImuStream.disable_readings defaultFilter [ReadingKind.Acc]).1
            [ReadingKind.Acc])
          [ReadingKind.Mag]).1 r = true) ∧
    (∀ r : Reading, r.kind = ReadingKind.Mag →
      applyFilter
        (ImuStream.disable_readings
          (ImuStream.enable_readings
            (ImuStream.disable_readings defaultFilter [ReadingKind.Acc]).1
            [ReadingKind.Acc])
          [ReadingKind.Mag]).1 r = false) ∧
    (∀ (f : Finset ReadingKind) (r : Reading),
      applyFilter f r = true ↔ r.kind ∈ f) := by
  refine ⟨by decide, ?_, ?_, ?_⟩
  · intro r hr
    simp [applyFilter, hr]
    decide
  · intro r hr
    simp [applyFilter, hr]
    decide
  · intro f r
    simp [applyFilter]

/-- Witness for C8: a concrete Acc reading passes and a concrete Mag
reading is dropped after the disable-enable-disable sequence. -/
theorem filter_disable_enable_roundtrip_witness :
    applyFilter
        (ImuStream.disable_readings
          (ImuStream.enable_readings
            (ImuStream.disable_readings defaultFilter [ReadingKind.Acc]).1
            [ReadingKind.Acc])
          [ReadingKind.Mag]).1 ⟨ReadingKind.Acc, 0, 0, 0⟩ = true ∧
    applyFilter
        (ImuStream.disable_readings
          (ImuStream.enable_readings
            (ImuStream.disable_readings defaultFilter [ReadingKind.Acc]).1
            [ReadingKind.Acc])
          [ReadingKind.Mag]).1 ⟨ReadingKind.Mag, 0, 0, 0⟩ = false :=
  ⟨filter_disable_enable_roundtrip.2.1 ⟨ReadingKind.Acc, 0, 0, 0⟩ rfl,
   filter_disable_enable_roundtrip.2.2.1 ⟨ReadingKind.Mag, 0, 0, 0⟩ rfl⟩

/-- C10: `disable_readings` is not atomic on error — if the kinds listed
before `k` were all removed successfully, producing filter state `g`,
and `k` is not enabled in `g`, then the whole call raises at `k` and
leaves the filter at `g`, from which every previously listed kind has
already been removed. -/
theorem disable_readings_partial_mutation (f g : Finset ReadingKind)
    (pre post : List ReadingKind) (k : ReadingKind)
    (hpre : ImuStream.disable_readings f pre = (g, none)) (hk : k ∉ g) :
    ImuStream.disable_readings f (pre ++ k :: post) = (g, some ()) ∧
    ∀ j ∈ pre, j ∉ g := by
  constructor
  · rw [disable_readings_append pre f g (k :: post) hpre,
      ImuStream.disable_readings, if_neg hk]
  · exact disable_readings_removed pre f g hpre

/-- Witness for C10: `disable_readings([Acc, Acc])` from the default
filter raises on the duplicate, yet the first removal has stuck. -/
theorem disable_readings_partial_mutation_witness :
    ImuStream.disable_readings defaultFilter
        [ReadingKind.Acc, ReadingKind.Acc] =
      ({ReadingKind.Gyro, ReadingKind.Mag}, some ()) :=
  (disable_readings_partial_mutation defaultFilter
    {ReadingKind.Gyro, ReadingKind.Mag} [ReadingKind.Acc] []
    ReadingKind.Acc (by decide) (by decide)).1
